import Mathlib

/-!
Shallow embedding of the NEKO-translate sources: `cat_translate/cli.py`
(language normalization, detection fallback, language-pair resolution,
input reading, prompt building, and the sampler-construction policy of
`run_mlx`) and `scripts/to_mlx.py` (the batch conversion driver).

Modelling conventions: Python strings are Lean strings; `str.strip` and
`str.lower` are given structural list-of-characters models so that they
compute; Python floats occur only in order comparisons against constants,
so they are modelled as rationals; the external language detector is
modelled by the ranked list of candidate codes it returns; the filesystem
seen by the conversion driver is the list of existing paths, and the
external conversion command is modelled as an event that creates its
output path.
-/

deriving instance DecidableEq for Except

/-- Python `str.strip`: drop whitespace from both ends of the string. -/
def pyStrip (s : String) : String :=
  ⟨((s.data.dropWhile Char.isWhitespace).reverse.dropWhile Char.isWhitespace).reverse⟩

/-- Python `str.lower` (ASCII case folding, characterwise). -/
def pyLower (s : String) : String :=
  ⟨s.data.map Char.toLower⟩

/-- A single ASCII quote character as a string, used in error messages. -/
def squote : String := String.singleton (Char.ofNat 39)

/-- `SUPPORTED_LANGS` from `cli.py`. -/
def SUPPORTED_LANGS : List String := ["ja", "en"]

/-- `LANG_CODE_MAP` from `cli.py`, the synonym dictionary as a lookup chain. -/
def LANG_CODE_MAP (key : String) : Option String :=
  if key = "ja" then some "ja"
  else if key = "jp" then some "ja"
  else if key = "japanese" then some "ja"
  else if key = "日本語" then some "ja"
  else if key = "en" then some "en"
  else if key = "eng" then some "en"
  else if key = "english" then some "en"
  else none

/-- `LANG_NAME_MAP` from `cli.py`. -/
def LANG_NAME_MAP (code : String) : Option String :=
  if code = "ja" then some "Japanese"
  else if code = "en" then some "English"
  else none

/-- The message `normalize_lang` raises for an unrecognized token; in the
source it interpolates the token and `sorted(SUPPORTED_LANGS)`. -/
def unsupportedLangMsg (value : String) : String :=
  "Unsupported language " ++ squote ++ value ++ squote ++ ". Supported: [" ++
    squote ++ "en" ++ squote ++ ", " ++ squote ++ "ja" ++ squote ++ "]"

/-- `normalize_lang` from `cli.py`. -/
def normalize_lang : Option String → Except String (Option String)
  | none => Except.ok none
  | some value =>
    match LANG_CODE_MAP (pyLower (pyStrip value)) with
    | some normalized => Except.ok (some normalized)
    | none => Except.error (unsupportedLangMsg value)

/-- `detect_lang` from `cli.py`, with the external detector modelled by the
ranked list of candidate language codes it returned for the text. -/
def detect_lang : List String → Except String String
  | [] => Except.error "Could not detect language as English or Japanese."
  | lang :: rest =>
    if lang ∈ SUPPORTED_LANGS then Except.ok lang else detect_lang rest

/-- The complement expression used by `resolve_languages` to infer a
missing side of the pair. -/
def otherLang (lang : String) : String :=
  if lang = "en" then "ja" else "en"

/-- The branch structure of `resolve_languages` in `cli.py` after both
tokens have been normalized: detect when neither side is present, infer the
complement when one side is present, validate when both are present. -/
def resolveCore (inputLang outputLang : Option String) (cands : List String) :
    Except String (String × String) :=
  match inputLang, outputLang with
  | none, none =>
    match detect_lang cands with
    | Except.error e => Except.error e
    | Except.ok il => Except.ok (il, otherLang il)
  | none, some ol => Except.ok (otherLang ol, ol)
  | some il, none => Except.ok (il, otherLang il)
  | some il, some ol =>
    if il ∉ SUPPORTED_LANGS ∨ ol ∉ SUPPORTED_LANGS then
      Except.error "Only English and Japanese are supported."
    else if il = ol then
      Except.error "Input and output languages must be different."
    else Except.ok (il, ol)

/-- `resolve_languages` from `cli.py`; `cands` is the candidate list the
external detector would return for the input text, and a normalization
failure propagates as in the source. -/
def resolve_languages (inputTok outputTok : Option String) (cands : List String) :
    Except String (String × String) :=
  match normalize_lang inputTok with
  | Except.error e => Except.error e
  | Except.ok inputLang =>
    match normalize_lang outputTok with
    | Except.error e => Except.error e
    | Except.ok outputLang => resolveCore inputLang outputLang cands

/-- `read_text` from `cli.py`: the optional `--text` value, whether stdin
is an interactive terminal, and the data available on stdin. -/
def read_text (textArg : Option String) (stdinIsTty : Bool) (stdinData : String) :
    Except String String :=
  match textArg with
  | some t => Except.ok t
  | none =>
    if stdinIsTty then Except.error "Provide --text or pipe input via stdin."
    else if pyStrip stdinData = "" then Except.error "No input text provided via stdin."
    else Except.ok stdinData

/-- The sampler-construction condition of `run_mlx` in `cli.py`. Python
truthiness of a number is inequality with zero, so each disjunct pairs a
truthiness test with the comparison that follows the `and`. -/
def sampler_constructed (temperature topP : ℚ) (topK : ℤ) : Bool :=
  (decide (temperature ≠ 0) && decide (temperature > 0)) ||
  (decide (topP ≠ 0) && decide (topP < 1)) ||
  (decide (topK ≠ 0) && decide (topK > 0))

/-- `PROMPT_TEMPLATE.format` from `cli.py`, substitution written out. -/
def format_prompt (srcLang tgtLang srcText : String) : String :=
  "Translate the following " ++ srcLang ++ " text into " ++ tgtLang ++
    ".\n\n" ++ srcText

/-- The prompt construction in `main` of `cli.py`: look up both language
names and substitute them into the template (a missing name would be a
KeyError, hence the option). -/
def build_prompt (inputLang outputLang text : String) : Option String :=
  match LANG_NAME_MAP inputLang, LANG_NAME_MAP outputLang with
  | some srcName, some tgtName => some (format_prompt srcName tgtName text)
  | _, _ => none

/-- `SUPPORTED_QBITS` from `to_mlx.py`; `sorted` of the set is `[4, 8]`. -/
def SUPPORTED_QBITS : List Int := [4, 8]

/-- Outcome of a conversion-driver run: the output paths of the conversion
commands that were executed, in order; the resulting set of existing
filesystem paths; and the fatal error message if one occurred. -/
structure DriveResult where
  invoked : List String
  fs : List String
  error : Option String
deriving DecidableEq

/-- The output path of one conversion job in `to_mlx.py`. -/
def jobPath (outputDir : String) (job : String × Int) : String :=
  outputDir ++ "/" ++ job.1 ++ "/q" ++ toString job.2

/-- The parent of a job output path, which the loop creates via `mkdir`. -/
def jobParent (outputDir : String) (job : String × Int) : String :=
  outputDir ++ "/" ++ job.1

/-- The message raised when a job output path already exists. -/
def outputExistsMsg (outDir : String) : String :=
  "Output path already exists: " ++ outDir ++
    ". Please delete/move it or choose another output directory."

/-- The nested job loop of `main` in `to_mlx.py`, over the flattened
(model, bit-width) sequence: make the parent directory, fail if the output
path exists, otherwise run the conversion command (modelled as creating the
output path) and continue. -/
def runJobs (outputDir : String) : List (String × Int) → List String → DriveResult
  | [], fs => { invoked := [], fs := fs, error := none }
  | job :: rest, fs =>
    let outDir := jobPath outputDir job
    let fsMk := jobParent outputDir job :: fs
    if outDir ∈ fsMk then
      { invoked := [], fs := fsMk, error := some (outputExistsMsg outDir) }
    else
      let r := runJobs outputDir rest (outDir :: fsMk)
      { invoked := outDir :: r.invoked, fs := r.fs, error := r.error }

/-- The message raised for unsupported quantization bit-widths. -/
def unsupportedQbitsMsg (invalid : List Int) : String :=
  "Unsupported qbits: " ++ toString invalid ++ ". Supported values: " ++
    toString SUPPORTED_QBITS

/-- `main` of `to_mlx.py` after argument parsing: validate the bit-width
list up front, then run the nested loop (outer over models, inner over
bit-widths, flattened in that order). -/
def to_mlx_main (models : List String) (qbitsList : List Int) (outputDir : String)
    (fs : List String) : DriveResult :=
  let invalidQbits := qbitsList.filter (fun q => decide (q ∉ SUPPORTED_QBITS))
  if invalidQbits ≠ [] then
    { invoked := [], fs := fs, error := some (unsupportedQbitsMsg invalidQbits) }
  else
    runJobs outputDir (models.flatMap (fun m => qbitsList.map (fun q => (m, q)))) fs

/-- Freshness of a job list against a filesystem: the output paths are
pairwise distinct, absent from the filesystem, and distinct from every
parent directory the loop creates. -/
def jobsFresh (outputDir : String) (fs : List String) (jobs : List (String × Int)) : Prop :=
  (jobs.map (jobPath outputDir)).Nodup ∧
  (∀ j ∈ jobs, jobPath outputDir j ∉ fs) ∧
  (∀ j ∈ jobs, ∀ j2 ∈ jobs, jobPath outputDir j ≠ jobParent outputDir j2)

/-- Any code produced by the synonym table is canonical. -/
theorem LANG_CODE_MAP_ok (key code : String) (h : LANG_CODE_MAP key = some code) :
    code = "ja" ∨ code = "en" := by
  unfold LANG_CODE_MAP at h
  split_ifs at h <;> simp_all

/-- Reduction of `normalize_lang` on a present token. -/
theorem normalize_lang_some_eq (v : String) :
    normalize_lang (some v) =
      match LANG_CODE_MAP (pyLower (pyStrip v)) with
      | some normalized => Except.ok (some normalized)
      | none => Except.error (unsupportedLangMsg v) := rfl

/-- A successful normalization of a present token yields a canonical code. -/
theorem normalize_lang_some_ok (v : String) (x : Option String)
    (h : normalize_lang (some v) = Except.ok x) :
    ∃ c, x = some c ∧ (c = "ja" ∨ c = "en") := by
  rw [normalize_lang_some_eq] at h
  cases hm : LANG_CODE_MAP (pyLower (pyStrip v)) with
  | none => rw [hm] at h; simp at h
  | some c =>
    rw [hm] at h
    simp at h
    exact ⟨c, h.symm, LANG_CODE_MAP_ok _ c hm⟩

/-- A successful normalization yielding a code gives a canonical code. -/
theorem normalize_lang_ok (tok : Option String) (c : String)
    (h : normalize_lang tok = Except.ok (some c)) : c = "ja" ∨ c = "en" := by
  cases tok with
  | none => simp [normalize_lang] at h
  | some v =>
    obtain ⟨c2, hc2, hor⟩ := normalize_lang_some_ok v (some c) h
    cases hc2
    exact hor

/-- C5: language-token normalization trims whitespace and lowercases; every
synonym of ja maps to ja, every synonym of en maps to en, and any other
present token fails with the message naming the token and the supported
set. -/
theorem C5_normalization :
    ∀ v : String,
      (pyLower (pyStrip v) ∈ (["ja", "jp", "japanese", "日本語"] : List String) →
        normalize_lang (some v) = Except.ok (some "ja")) ∧
      (pyLower (pyStrip v) ∈ (["en", "eng", "english"] : List String) →
        normalize_lang (some v) = Except.ok (some "en")) ∧
      (pyLower (pyStrip v) ∉
          (["ja", "jp", "japanese", "日本語", "en", "eng", "english"] : List String) →
        normalize_lang (some v) = Except.error (unsupportedLangMsg v)) := by
  intro v
  refine ⟨fun h => ?_, fun h => ?_, fun h => ?_⟩
  · simp only [List.mem_cons, List.not_mem_nil, or_false] at h
    rcases h with h | h | h | h <;> rw [normalize_lang_some_eq, h] <;> rfl
  · simp only [List.mem_cons, List.not_mem_nil, or_false] at h
    rcases h with h | h | h <;> rw [normalize_lang_some_eq, h] <;> rfl
  · simp only [List.mem_cons, List.not_mem_nil, or_false, not_or] at h
    obtain ⟨h1, h2, h3, h4, h5, h6, h7⟩ := h
    have hm : LANG_CODE_MAP (pyLower (pyStrip v)) = none := by
      unfold LANG_CODE_MAP
      rw [if_neg h1, if_neg h2, if_neg h3, if_neg h4, if_neg h5, if_neg h6, if_neg h7]
    rw [normalize_lang_some_eq, hm]

/-- Witness for C5 at the tokens JA with padding and xx. -/
theorem C5_witness :
    normalize_lang (some " JA ") = Except.ok (some "ja") ∧
    normalize_lang (some "Eng") = Except.ok (some "en") ∧
    normalize_lang (some "xx") = Except.error (unsupportedLangMsg "xx") :=
  ⟨(C5_normalization " JA ").1 (by decide),
   (C5_normalization "Eng").2.1 (by decide),
   (C5_normalization "xx").2.2 (by decide)⟩

/-- C9: the prompt builder is total on valid pairs, and is the pure
substitution of the language names and the text into the fixed template;
for source en, target ja, text Hello it is the instantiated template. -/
theorem C9_prompt_substitution :
    (∀ src tgt : String, src ∈ SUPPORTED_LANGS → tgt ∈ SUPPORTED_LANGS →
      ∀ text : String, (build_prompt src tgt text).isSome = true) ∧
    (∀ text : String, build_prompt "en" "ja" text =
      some ("Translate the following English text into Japanese.\n\n" ++ text)) ∧
    build_prompt "en" "ja" "Hello" =
      some "Translate the following English text into Japanese.\n\nHello" := by
  refine ⟨?_, fun text => rfl, by decide⟩
  intro src tgt hs ht text
  simp only [SUPPORTED_LANGS, List.mem_cons, List.not_mem_nil, or_false] at hs ht
  rcases hs with rfl | rfl <;> rcases ht with rfl | rfl <;> rfl

/-- Witness for C9: validity of the en to ja pair gives a prompt. -/
theorem C9_witness : (build_prompt "en" "ja" "Hello").isSome = true :=
  C9_prompt_substitution.1 "en" "ja" (by decide) (by decide) "Hello"

/-- C10: a supplied text flag is returned verbatim, empty or not, with no
emptiness check; stdin text fails exactly when it strips to empty. -/
theorem C10_text_flag_verbatim :
    (∀ (t : String) (tty : Bool) (data : String),
      read_text (some t) tty data = Except.ok t) ∧
    (∀ data : String, pyStrip data = "" →
      read_text none false data = Except.error "No input text provided via stdin.") ∧
    (∀ data : String, pyStrip data ≠ "" →
      read_text none false data = Except.ok data) := by
  refine ⟨fun t tty data => rfl, fun data h => ?_, fun data h => ?_⟩
  · simp [read_text, h]
  · simp [read_text, h]

/-- Witness for C10: the empty flag value is accepted, whitespace-only
stdin is rejected. -/
theorem C10_witness :
    read_text (some "") true "ignored" = Except.ok "" ∧
    read_text none false " \t " = Except.error "No input text provided via stdin." :=
  ⟨C10_text_flag_verbatim.1 "" true "ignored",
   C10_text_flag_verbatim.2.1 " \t " (by decide)⟩

/-- C3: within the generation-parameter ranges (temperature nonnegative,
top-p in the half-open unit interval, top-k nonnegative) a sampler is
constructed iff temperature is positive, top-p is below one, or top-k is
positive; equivalently it is skipped iff the parameters are exactly greedy. -/
theorem C3_sampler_iff (temperature topP : ℚ) (topK : ℤ)
    (ht : 0 ≤ temperature) (hp0 : 0 < topP) (hp1 : topP ≤ 1) (hk : 0 ≤ topK) :
    (sampler_constructed temperature topP topK = true ↔
      (0 < temperature ∨ topP < 1 ∨ 0 < topK)) ∧
    (sampler_constructed temperature topP topK = false ↔
      (temperature = 0 ∧ topP = 1 ∧ topK = 0)) := by
  have key : sampler_constructed temperature topP topK = true ↔
      (0 < temperature ∨ topP < 1 ∨ 0 < topK) := by
    unfold sampler_constructed
    simp only [Bool.or_eq_true, Bool.and_eq_true, decide_eq_true_eq]
    constructor
    · rintro ((⟨_, h⟩ | ⟨_, h⟩) | ⟨_, h⟩)
      · exact Or.inl h
      · exact Or.inr (Or.inl h)
      · exact Or.inr (Or.inr h)
    · rintro (h | h | h)
      · exact Or.inl (Or.inl ⟨ne_of_gt h, h⟩)
      · exact Or.inl (Or.inr ⟨ne_of_gt hp0, h⟩)
      · exact Or.inr ⟨ne_of_gt h, h⟩
  refine ⟨key, ?_, ?_⟩
  · intro hfalse
    have hnot : ¬(0 < temperature ∨ topP < 1 ∨ 0 < topK) := by
      rw [← key, hfalse]; simp
    push_neg at hnot
    obtain ⟨h1, h2, h3⟩ := hnot
    exact ⟨le_antisymm h1 ht, le_antisymm hp1 h2, le_antisymm h3 hk⟩
  · rintro ⟨rfl, rfl, rfl⟩
    decide

/-- Witness for C3 at the default greedy parameters. -/
theorem C3_witness :
    (sampler_constructed 0 1 0 = true ↔
      ((0 : ℚ) < 0 ∨ (1 : ℚ) < 1 ∨ (0 : ℤ) < 0)) ∧
    (sampler_constructed 0 1 0 = false ↔
      ((0 : ℚ) = 0 ∧ (1 : ℚ) = 1 ∧ (0 : ℤ) = 0)) :=
  C3_sampler_iff 0 1 0 (by norm_num) (by norm_num) (by norm_num) (by norm_num)

/-- A detected code is supported. -/
theorem detect_lang_ok_mem (cands : List String) (l : String)
    (h : detect_lang cands = Except.ok l) : l ∈ SUPPORTED_LANGS := by
  induction cands with
  | nil => simp [detect_lang] at h
  | cons c rest ih =>
    by_cases hc : c ∈ SUPPORTED_LANGS
    · simp [detect_lang, hc] at h
      exact h ▸ hc
    · simp [detect_lang, hc] at h
      exact ih h

/-- The detector scan returns the first supported candidate. -/
theorem detect_lang_first (cands : List String) :
    ∀ (i : Nat) (h : i < cands.length),
      (∀ x ∈ cands.take i, x ∉ SUPPORTED_LANGS) →
      cands.get ⟨i, h⟩ ∈ SUPPORTED_LANGS →
      detect_lang cands = Except.ok (cands.get ⟨i, h⟩) := by
  induction cands with
  | nil => intro i h; exact absurd h (by simp)
  | cons c rest ih =>
    intro i h hpre hi
    cases i with
    | zero =>
      simp only [List.get] at hi ⊢
      simp [detect_lang, hi]
    | succ n =>
      have hc : c ∉ SUPPORTED_LANGS := hpre c (by simp)
      have hrec := ih n (by simpa using h)
        (fun x hx => hpre x (by simpa using Or.inr hx)) (by simpa using hi)
      simpa [detect_lang, hc] using hrec

/-- The detector scan fails when no candidate is supported. -/
theorem detect_lang_none (cands : List String)
    (h : ∀ x ∈ cands, x ∉ SUPPORTED_LANGS) :
    detect_lang cands =
      Except.error "Could not detect language as English or Japanese." := by
  induction cands with
  | nil => rfl
  | cons c rest ih =>
    simp [detect_lang, h c (by simp)]
    exact ih fun x hx => h x (by simp [hx])

/-- The complement of a supported code is supported. -/
theorem otherLang_mem (l : String) (h : l ∈ SUPPORTED_LANGS) :
    otherLang l ∈ SUPPORTED_LANGS := by
  simp only [SUPPORTED_LANGS, List.mem_cons, List.not_mem_nil, or_false] at h ⊢
  rcases h with rfl | rfl <;> simp [otherLang]

/-- The complement of a supported code differs from it. -/
theorem otherLang_ne (l : String) (h : l ∈ SUPPORTED_LANGS) : otherLang l ≠ l := by
  simp only [SUPPORTED_LANGS, List.mem_cons, List.not_mem_nil, or_false] at h
  rcases h with rfl | rfl <;> simp [otherLang]

/-- The complement is its own inverse on supported codes. -/
theorem otherLang_invol (l : String) (h : l ∈ SUPPORTED_LANGS) :
    otherLang (otherLang l) = l := by
  simp only [SUPPORTED_LANGS, List.mem_cons, List.not_mem_nil, or_false] at h
  rcases h with rfl | rfl <;> rfl

/-- Reduction of the resolver when neither side is declared. -/
theorem resolve_none_none_eq (cands : List String) :
    resolve_languages none none cands =
      match detect_lang cands with
      | Except.error e => Except.error e
      | Except.ok il => Except.ok (il, otherLang il) := rfl

/-- A failing input-token normalization propagates. -/
theorem resolve_err_left (inputTok outputTok : Option String) (cands : List String)
    (e : String) (hni : normalize_lang inputTok = Except.error e) :
    resolve_languages inputTok outputTok cands = Except.error e := by
  unfold resolve_languages
  rw [hni]

/-- A failing output-token normalization propagates. -/
theorem resolve_err_right (inputTok outputTok : Option String) (cands : List String)
    (il : Option String) (e : String) (hni : normalize_lang inputTok = Except.ok il)
    (hno : normalize_lang outputTok = Except.error e) :
    resolve_languages inputTok outputTok cands = Except.error e := by
  unfold resolve_languages
  rw [hni, hno]

/-- When both normalizations succeed the resolver runs its branch core. -/
theorem resolve_ok_ok (inputTok outputTok : Option String) (cands : List String)
    (il ol : Option String) (hni : normalize_lang inputTok = Except.ok il)
    (hno : normalize_lang outputTok = Except.ok ol) :
    resolve_languages inputTok outputTok cands = resolveCore il ol cands := by
  unfold resolve_languages
  rw [hni, hno]

/-- Branch-core reduction: only the target declared. -/
theorem resolveCore_none_some (ol : String) (cands : List String) :
    resolveCore none (some ol) cands = Except.ok (otherLang ol, ol) := rfl

/-- Branch-core reduction: only the source declared. -/
theorem resolveCore_some_none (il : String) (cands : List String) :
    resolveCore (some il) none cands = Except.ok (il, otherLang il) := rfl

/-- Branch-core reduction: both sides declared. -/
theorem resolveCore_some_some (il ol : String) (cands : List String) :
    resolveCore (some il) (some ol) cands =
      if il ∉ SUPPORTED_LANGS ∨ ol ∉ SUPPORTED_LANGS then
        Except.error "Only English and Japanese are supported."
      else if il = ol then
        Except.error "Input and output languages must be different."
      else Except.ok (il, ol) := rfl

/-- Branch-core reduction: neither side declared. -/
theorem resolveCore_none_none (cands : List String) :
    resolveCore none none cands =
      match detect_lang cands with
      | Except.error e => Except.error e
      | Except.ok il => Except.ok (il, otherLang il) := rfl

/-- C1: every pair the resolver returns has a supported source, a supported
target, and distinct sides; declaring the same token on both sides never
yields a pair. -/
theorem C1_pair_invariant :
    (∀ (inputTok outputTok : Option String) (cands : List String) (s t : String),
      resolve_languages inputTok outputTok cands = Except.ok (s, t) →
        s ≠ t ∧ s ∈ SUPPORTED_LANGS ∧ t ∈ SUPPORTED_LANGS) ∧
    (∀ (v : String) (cands : List String) (p : String × String),
      resolve_languages (some v) (some v) cands ≠ Except.ok p) := by
  constructor
  · intro inputTok outputTok cands s t h
    cases hni : normalize_lang inputTok with
    | error e => rw [resolve_err_left inputTok outputTok cands e hni] at h; simp at h
    | ok il =>
      cases hno : normalize_lang outputTok with
      | error e =>
        rw [resolve_err_right inputTok outputTok cands il e hni hno] at h
        simp at h
      | ok ol =>
        rw [resolve_ok_ok inputTok outputTok cands il ol hni hno] at h
        cases il with
        | none =>
          cases ol with
          | none =>
            rw [resolveCore_none_none] at h
            cases hd : detect_lang cands with
            | error e => rw [hd] at h; simp at h
            | ok l =>
              rw [hd] at h
              simp only [Except.ok.injEq, Prod.mk.injEq] at h
              obtain ⟨rfl, rfl⟩ := h
              have hl := detect_lang_ok_mem cands l hd
              exact ⟨Ne.symm (otherLang_ne l hl), hl, otherLang_mem l hl⟩
          | some olc =>
            rw [resolveCore_none_some] at h
            simp only [Except.ok.injEq, Prod.mk.injEq] at h
            obtain ⟨rfl, rfl⟩ := h
            have holc : olc ∈ SUPPORTED_LANGS := by
              have := normalize_lang_ok outputTok olc hno
              simp [SUPPORTED_LANGS, this]
            exact ⟨otherLang_ne olc holc, otherLang_mem olc holc, holc⟩
        | some ilc =>
          cases ol with
          | none =>
            rw [resolveCore_some_none] at h
            simp only [Except.ok.injEq, Prod.mk.injEq] at h
            obtain ⟨rfl, rfl⟩ := h
            have hilc : ilc ∈ SUPPORTED_LANGS := by
              have := normalize_lang_ok inputTok ilc hni
              simp [SUPPORTED_LANGS, this]
            exact ⟨Ne.symm (otherLang_ne ilc hilc), hilc, otherLang_mem ilc hilc⟩
          | some olc =>
            rw [resolveCore_some_some] at h
            by_cases hsup : ilc ∉ SUPPORTED_LANGS ∨ olc ∉ SUPPORTED_LANGS
            · rw [if_pos hsup] at h; simp at h
            · rw [if_neg hsup] at h
              by_cases heq : ilc = olc
              · rw [if_pos heq] at h; simp at h
              · rw [if_neg heq] at h
                simp only [Except.ok.injEq, Prod.mk.injEq] at h
                obtain ⟨rfl, rfl⟩ := h
                push_neg at hsup
                exact ⟨heq, hsup.1, hsup.2⟩
  · intro v cands p h
    cases hn : normalize_lang (some v) with
    | error e => rw [resolve_err_left (some v) (some v) cands e hn] at h; simp at h
    | ok x =>
      obtain ⟨c, rfl, hc⟩ := normalize_lang_some_ok v x hn
      rw [resolve_ok_ok (some v) (some v) cands (some c) (some c) hn hn,
        resolveCore_some_some] at h
      have hcs : c ∈ SUPPORTED_LANGS := by simp [SUPPORTED_LANGS, hc]
      rw [if_neg (by simp [hcs]), if_pos rfl] at h
      simp at h

/-- Witness for C1 at declared pair (en, ja). -/
theorem C1_witness :
    ("en" : String) ≠ "ja" ∧ ("en" : String) ∈ SUPPORTED_LANGS ∧
      ("ja" : String) ∈ SUPPORTED_LANGS :=
  C1_pair_invariant.1 (some "en") (some "ja") [] "en" "ja" (by decide)

/-- C2: with neither side declared the resolver takes the first supported
detector candidate as source and its complement as target; candidates
fr, en, ja give the pair (en, ja); if no candidate is supported it fails
with the detection error. -/
theorem C2_detection_order :
    (∀ (cands : List String) (i : Nat) (h : i < cands.length),
      (∀ x ∈ cands.take i, x ∉ SUPPORTED_LANGS) →
      cands.get ⟨i, h⟩ ∈ SUPPORTED_LANGS →
      resolve_languages none none cands =
        Except.ok (cands.get ⟨i, h⟩, otherLang (cands.get ⟨i, h⟩))) ∧
    (∀ cands : List String, (∀ x ∈ cands, x ∉ SUPPORTED_LANGS) →
      resolve_languages none none cands =
        Except.error "Could not detect language as English or Japanese.") ∧
    resolve_languages none none ["fr", "en", "ja"] = Except.ok ("en", "ja") := by
  refine ⟨?_, ?_, by decide⟩
  · intro cands i h hpre hi
    rw [resolve_none_none_eq, detect_lang_first cands i h hpre hi]
  · intro cands h
    rw [resolve_none_none_eq, detect_lang_none cands h]

/-- Witness for C2 at candidates fr, en, ja: the supported one at rank 1
is chosen. -/
theorem C2_witness :
    resolve_languages none none ["fr", "en", "ja"] =
      Except.ok (["fr", "en", "ja"].get ⟨1, by decide⟩,
        otherLang (["fr", "en", "ja"].get ⟨1, by decide⟩)) :=
  C2_detection_order.1 ["fr", "en", "ja"] 1 (by decide) (by decide) (by decide)

/-- C4: with exactly one side declared the resolver fills the other side by
the two-element complement, for any detector candidates (the detector is
not consulted); the complement is total on the supported set and is its
own inverse. -/
theorem C4_complement_inference :
    (∀ cands : List String,
      resolve_languages none (some "en") cands = Except.ok ("ja", "en") ∧
      resolve_languages (some "en") none cands = Except.ok ("en", "ja")) ∧
    (∀ (tok code : String) (cands : List String),
      normalize_lang (some tok) = Except.ok (some code) →
        resolve_languages none (some tok) cands = Except.ok (otherLang code, code) ∧
        resolve_languages (some tok) none cands = Except.ok (code, otherLang code)) ∧
    (∀ code ∈ SUPPORTED_LANGS, otherLang code ∈ SUPPORTED_LANGS ∧
      otherLang (otherLang code) = code) := by
  refine ⟨fun cands => ⟨rfl, rfl⟩, ?_, ?_⟩
  · intro tok code cands h
    constructor
    · rw [resolve_ok_ok none (some tok) cands none (some code) rfl h,
        resolveCore_none_some]
    · rw [resolve_ok_ok (some tok) none cands (some code) none h rfl,
        resolveCore_some_none]
  · intro code hc
    exact ⟨otherLang_mem code hc, otherLang_invol code hc⟩

/-- Witness for C4 at the token JP with padding, which normalizes to ja. -/
theorem C4_witness :
    resolve_languages none (some "JP ") [] = Except.ok (otherLang "ja", "ja") ∧
    resolve_languages (some "JP ") none [] = Except.ok ("ja", otherLang "ja") :=
  C4_complement_inference.2.1 "JP " "ja" [] (by decide)

/-- Unfolding of one step of the job loop. -/
theorem runJobs_cons (outputDir : String) (job : String × Int)
    (rest : List (String × Int)) (fs : List String) :
    runJobs outputDir (job :: rest) fs =
      if jobPath outputDir job ∈ jobParent outputDir job :: fs then
        { invoked := [], fs := jobParent outputDir job :: fs,
          error := some (outputExistsMsg (jobPath outputDir job)) }
      else
        { invoked := jobPath outputDir job ::
            (runJobs outputDir rest
              (jobPath outputDir job :: jobParent outputDir job :: fs)).invoked,
          fs := (runJobs outputDir rest
            (jobPath outputDir job :: jobParent outputDir job :: fs)).fs,
          error := (runJobs outputDir rest
            (jobPath outputDir job :: jobParent outputDir job :: fs)).error } := rfl

/-- The job loop never removes an existing path. -/
theorem runJobs_mono (outputDir : String) (jobs : List (String × Int)) :
    ∀ (fs : List String) (p : String), p ∈ fs → p ∈ (runJobs outputDir jobs fs).fs := by
  induction jobs with
  | nil => intro fs p hp; exact hp
  | cons job rest ih =>
    intro fs p hp
    rw [runJobs_cons]
    by_cases hmem : jobPath outputDir job ∈ jobParent outputDir job :: fs
    · rw [if_pos hmem]
      exact List.mem_cons_of_mem _ hp
    · rw [if_neg hmem]
      exact ih _ p (List.mem_cons_of_mem _ (List.mem_cons_of_mem _ hp))

/-- On a fresh job list the loop invokes every job path in order and
finishes without error. -/
theorem runJobs_fresh_spec (outputDir : String) (jobs : List (String × Int)) :
    ∀ fs : List String,
      (jobs.map (jobPath outputDir)).Nodup →
      (∀ j ∈ jobs, jobPath outputDir j ∉ fs) →
      (∀ j ∈ jobs, ∀ j2 ∈ jobs, jobPath outputDir j ≠ jobParent outputDir j2) →
      (runJobs outputDir jobs fs).invoked = jobs.map (jobPath outputDir) ∧
      (runJobs outputDir jobs fs).error = none := by
  induction jobs with
  | nil => intro fs _ _ _; exact ⟨rfl, rfl⟩
  | cons job rest ih =>
    intro fs hnodup hfs hpar
    have hne : jobPath outputDir job ≠ jobParent outputDir job :=
      hpar job (List.mem_cons_self job rest) job (List.mem_cons_self job rest)
    have hnf : jobPath outputDir job ∉ fs := hfs job (List.mem_cons_self job rest)
    have hmem : jobPath outputDir job ∉ jobParent outputDir job :: fs := by
      intro hm
      rcases List.mem_cons.mp hm with h | h
      · exact hne h
      · exact hnf h
    rw [runJobs_cons, if_neg hmem]
    have hnodup2 : (rest.map (jobPath outputDir)).Nodup :=
      (List.nodup_cons.mp (by simpa using hnodup)).2
    have hhead : jobPath outputDir job ∉ rest.map (jobPath outputDir) :=
      (List.nodup_cons.mp (by simpa using hnodup)).1
    have hfs2 : ∀ j ∈ rest, jobPath outputDir j ∉
        jobPath outputDir job :: jobParent outputDir job :: fs := by
      intro j hj hm
      rcases List.mem_cons.mp hm with h | hm2
      · exact hhead (h ▸ List.mem_map_of_mem _ hj)
      · rcases List.mem_cons.mp hm2 with h | h
        · exact hpar j (List.mem_cons_of_mem _ hj) job (List.mem_cons_self job rest) h
        · exact hfs j (List.mem_cons_of_mem _ hj) h
    have hpar2 : ∀ j ∈ rest, ∀ j2 ∈ rest,
        jobPath outputDir j ≠ jobParent outputDir j2 :=
      fun j hj j2 hj2 =>
        hpar j (List.mem_cons_of_mem _ hj) j2 (List.mem_cons_of_mem _ hj2)
    obtain ⟨h1, h2⟩ :=
      ih (jobPath outputDir job :: jobParent outputDir job :: fs) hnodup2 hfs2 hpar2
    exact ⟨by simp [h1], h2⟩

/-- If every job before the offender is fresh and the offender path exists,
the loop stops at the offender with its message, having invoked exactly the
earlier job paths. -/
theorem runJobs_stops (outputDir : String) (pre : List (String × Int)) :
    ∀ (fs : List String) (job : String × Int) (post : List (String × Int)),
      (pre.map (jobPath outputDir)).Nodup →
      (∀ j ∈ pre, jobPath outputDir j ∉ fs) →
      (∀ j ∈ pre, ∀ j2 ∈ pre, jobPath outputDir j ≠ jobParent outputDir j2) →
      jobPath outputDir job ∈ fs →
      (runJobs outputDir (pre ++ job :: post) fs).error =
        some (outputExistsMsg (jobPath outputDir job)) ∧
      (runJobs outputDir (pre ++ job :: post) fs).invoked =
        pre.map (jobPath outputDir) := by
  induction pre with
  | nil =>
    intro fs job post _ _ _ hin
    have hmem : jobPath outputDir job ∈ jobParent outputDir job :: fs :=
      List.mem_cons_of_mem _ hin
    rw [List.nil_append, runJobs_cons, if_pos hmem]
    exact ⟨rfl, rfl⟩
  | cons j0 pre ih =>
    intro fs job post hnodup hfs hpar hin
    have hne : jobPath outputDir j0 ≠ jobParent outputDir j0 :=
      hpar j0 (List.mem_cons_self j0 pre) j0 (List.mem_cons_self j0 pre)
    have hnf : jobPath outputDir j0 ∉ fs := hfs j0 (List.mem_cons_self j0 pre)
    have hmem0 : jobPath outputDir j0 ∉ jobParent outputDir j0 :: fs := by
      intro hm
      rcases List.mem_cons.mp hm with h | h
      · exact hne h
      · exact hnf h
    rw [List.cons_append, runJobs_cons, if_neg hmem0]
    have hnodup2 : (pre.map (jobPath outputDir)).Nodup :=
      (List.nodup_cons.mp (by simpa using hnodup)).2
    have hhead : jobPath outputDir j0 ∉ pre.map (jobPath outputDir) :=
      (List.nodup_cons.mp (by simpa using hnodup)).1
    have hfs2 : ∀ j ∈ pre, jobPath outputDir j ∉
        jobPath outputDir j0 :: jobParent outputDir j0 :: fs := by
      intro j hj hm
      rcases List.mem_cons.mp hm with h | hm2
      · exact hhead (h ▸ List.mem_map_of_mem _ hj)
      · rcases List.mem_cons.mp hm2 with h | h
        · exact hpar j (List.mem_cons_of_mem _ hj) j0 (List.mem_cons_self j0 pre) h
        · exact hfs j (List.mem_cons_of_mem _ hj) h
    have hpar2 : ∀ j ∈ pre, ∀ j2 ∈ pre,
        jobPath outputDir j ≠ jobParent outputDir j2 :=
      fun j hj j2 hj2 =>
        hpar j (List.mem_cons_of_mem _ hj) j2 (List.mem_cons_of_mem _ hj2)
    have hin2 : jobPath outputDir job ∈
        jobPath outputDir j0 :: jobParent outputDir j0 :: fs :=
      List.mem_cons_of_mem _ (List.mem_cons_of_mem _ hin)
    obtain ⟨h1, h2⟩ :=
      ih (jobPath outputDir j0 :: jobParent outputDir j0 :: fs) job post
        hnodup2 hfs2 hpar2 hin2
    exact ⟨h1, by simp [h2]⟩

/-- Unfolding of the driver entry: validation first, then the job loop. -/
theorem to_mlx_main_eq (models : List String) (qbitsList : List Int)
    (outputDir : String) (fs : List String) :
    to_mlx_main models qbitsList outputDir fs =
      if qbitsList.filter (fun q => decide (q ∉ SUPPORTED_QBITS)) ≠ [] then
        { invoked := [], fs := fs,
          error := some (unsupportedQbitsMsg
            (qbitsList.filter (fun q => decide (q ∉ SUPPORTED_QBITS)))) }
      else
        runJobs outputDir
          (models.flatMap (fun m => qbitsList.map (fun q => (m, q)))) fs := rfl

/-- Job paths of the flattened loop sequence, model by model. -/
theorem map_jobPath_flatMap (outputDir : String) (models : List String)
    (qbitsList : List Int) :
    (models.flatMap (fun m => qbitsList.map (fun q => (m, q)))).map (jobPath outputDir) =
      models.flatMap (fun m => qbitsList.map (fun q => jobPath outputDir (m, q))) := by
  induction models with
  | nil => rfl
  | cons m ms ih =>
    simp only [List.flatMap_cons, List.map_append, ih, List.map_map]
    rfl

/-- C6: an invalid bit-width list makes the driver fail up front: nothing
is invoked, the filesystem is untouched, and the error reports exactly the
invalid values; for qbits 4 and 16 the reported list is the 16 alone. -/
theorem C6_qbits_validated :
    (∀ (models : List String) (qbitsList : List Int) (outputDir : String)
      (fs : List String),
      qbitsList.filter (fun q => decide (q ∉ SUPPORTED_QBITS)) ≠ [] →
      to_mlx_main models qbitsList outputDir fs =
        { invoked := [], fs := fs,
          error := some (unsupportedQbitsMsg
            (qbitsList.filter (fun q => decide (q ∉ SUPPORTED_QBITS)))) }) ∧
    to_mlx_main ["m"] [4, 16] "out" [] =
      { invoked := [], fs := [],
        error := some "Unsupported qbits: [16]. Supported values: [4, 8]" } := by
  refine ⟨?_, by decide⟩
  intro models qbitsList outputDir fs h
  rw [to_mlx_main_eq, if_pos h]

/-- Witness for C6 at qbits 4 and 16. -/
theorem C6_witness :
    to_mlx_main ["m"] [4, 16] "out" [] =
      { invoked := [], fs := [],
        error := some (unsupportedQbitsMsg
          (([4, 16] : List Int).filter (fun q => decide (q ∉ SUPPORTED_QBITS)))) } :=
  C6_qbits_validated.1 ["m"] [4, 16] "out" [] (by decide)

/-- C7: with valid bit-widths and fresh output paths the driver performs
exactly one job per (model, bit-width) pair, outer loop over models, inner
over bit-widths, each at path outputDir/model/q-bits; models m1, m2 with
qbits 8 and output dir out invoke out/m1/q8 then out/m2/q8, in order. -/
theorem C7_job_enumeration :
    (∀ (models : List String) (qbitsList : List Int) (outputDir : String)
      (fs : List String),
      (∀ q ∈ qbitsList, q ∈ SUPPORTED_QBITS) →
      jobsFresh outputDir fs (models.flatMap (fun m => qbitsList.map (fun q => (m, q)))) →
      (to_mlx_main models qbitsList outputDir fs).invoked =
        models.flatMap (fun m => qbitsList.map (fun q => jobPath outputDir (m, q))) ∧
      (to_mlx_main models qbitsList outputDir fs).error = none) ∧
    ((to_mlx_main ["m1", "m2"] [8] "out" []).invoked = ["out/m1/q8", "out/m2/q8"] ∧
      (to_mlx_main ["m1", "m2"] [8] "out" []).error = none) := by
  refine ⟨?_, by decide, by decide⟩
  intro models qbitsList outputDir fs hq hfresh
  obtain ⟨h1, h2, h3⟩ := hfresh
  have hfil : qbitsList.filter (fun q => decide (q ∉ SUPPORTED_QBITS)) = [] := by
    rw [List.filter_eq_nil_iff]
    intro a ha
    simpa using hq a ha
  obtain ⟨hi, he⟩ :=
    runJobs_fresh_spec outputDir
      (models.flatMap (fun m => qbitsList.map (fun q => (m, q)))) fs h1 h2 h3
  rw [to_mlx_main_eq, if_neg (by rw [hfil]; simp)]
  exact ⟨by rw [hi, map_jobPath_flatMap], he⟩

/-- Witness for C7 at one model and one bit-width. -/
theorem C7_witness :
    (to_mlx_main ["a"] [4] "o" []).invoked =
      ["a"].flatMap (fun m => ([4] : List Int).map (fun q => jobPath "o" (m, q))) ∧
    (to_mlx_main ["a"] [4] "o" []).error = none :=
  C7_job_enumeration.1 ["a"] [4] "o" [] (by decide) ⟨by decide, by decide, by decide⟩

/-- C8: the driver never removes an existing path, and when a job output
path already exists it fails with an error naming that path having invoked
only the strictly earlier jobs. -/
theorem C8_no_clobber :
    (∀ (outputDir : String) (jobs : List (String × Int)) (fs : List String)
      (p : String), p ∈ fs → p ∈ (runJobs outputDir jobs fs).fs) ∧
    (∀ (models : List String) (qbitsList : List Int) (outputDir : String)
      (fs : List String) (pre : List (String × Int)) (job : String × Int)
      (post : List (String × Int)),
      models.flatMap (fun m => qbitsList.map (fun q => (m, q))) = pre ++ job :: post →
      (∀ q ∈ qbitsList, q ∈ SUPPORTED_QBITS) →
      jobsFresh outputDir fs pre →
      jobPath outputDir job ∈ fs →
      (to_mlx_main models qbitsList outputDir fs).error =
        some (outputExistsMsg (jobPath outputDir job)) ∧
      (to_mlx_main models qbitsList outputDir fs).invoked =
        pre.map (jobPath outputDir) ∧
      ∀ p ∈ fs, p ∈ (to_mlx_main models qbitsList outputDir fs).fs) := by
  refine ⟨fun outputDir jobs => runJobs_mono outputDir jobs, ?_⟩
  intro models qbitsList outputDir fs pre job post hdecomp hq hfresh hin
  obtain ⟨h1, h2, h3⟩ := hfresh
  have hfil : qbitsList.filter (fun q => decide (q ∉ SUPPORTED_QBITS)) = [] := by
    rw [List.filter_eq_nil_iff]
    intro a ha
    simpa using hq a ha
  rw [to_mlx_main_eq, if_neg (by rw [hfil]; simp), hdecomp]
  obtain ⟨he, hi⟩ := runJobs_stops outputDir pre fs job post h1 h2 h3 hin
  exact ⟨he, hi, fun p hp => runJobs_mono outputDir (pre ++ job :: post) fs p hp⟩

/-- Witness for C8: the path out/m1/q8 exists up front, the offender is the
very first job, nothing is invoked. -/
theorem C8_witness :
    (to_mlx_main ["m1"] [8] "out" ["out/m1/q8"]).error =
      some (outputExistsMsg (jobPath "out" ("m1", 8))) ∧
    (to_mlx_main ["m1"] [8] "out" ["out/m1/q8"]).invoked = [] := by
  have h := C8_no_clobber.2 ["m1"] [8] "out" ["out/m1/q8"] [] ("m1", 8) []
    (by decide) (by decide) ⟨by decide, by decide, by decide⟩ (by decide)
  exact ⟨h.1, h.2.1⟩
